import Mathlib

/-!
Verification of the piet-raqote backend (src/piet-raqote/src/lib.rs).

Rust machine integers (u8, u16, u32) are modelled as natural numbers with
wraparound written out as explicit mod where the Rust type could wrap; f32 and
f64 values are idealised as real numbers.  External collaborator types
(kurbo Affine, euclid Transform2D, raqote Source, sw_composite Image) are
embedded at their interface boundary following their documented conventions.
-/

namespace PietRaqote

/-- Embeds split_rgba: unpack a packed RGBA u32 into (r, g, b, a) bytes,
most-significant byte red.  The first component is a plain u8 cast
(truncation mod 256); the other three mask with 255 before the cast, exactly
as in the source. -/
def split_rgba (rgba : Nat) : Nat × Nat × Nat × Nat :=
  ((rgba >>> 24) % 256,
   (rgba >>> 16) &&& 255,
   (rgba >>> 8) &&& 255,
   rgba &&& 255)

/-- Embeds rgba_to_arbg: repack an RGBA u32 into the rasterizer's
alpha-most-significant convention by bit rotation,
(rgba << 24) | (rgba >> 8) in u32 arithmetic (the left shift wraps mod 2^32). -/
def rgba_to_arbg (rgba : Nat) : Nat :=
  ((rgba <<< 24) % 2 ^ 32) ||| (rgba >>> 8)

/-- Spec-side repacking of the four bytes produced by split_rgba back into a
packed RGBA u32 (most-significant byte red); used to state the
split-then-repack round trip. -/
def repack_rgba (r g b a : Nat) : Nat :=
  (r <<< 24) ||| (g <<< 16) ||| (b <<< 8) ||| a

/-- Spec-side opposite bit rotation, (x << 8) | (x >> 24) in u32 arithmetic:
the claimed two-sided inverse of rgba_to_arbg on the 32-bit space. -/
def arbg_to_rgba (x : Nat) : Nat :=
  ((x <<< 8) % 2 ^ 32) ||| (x >>> 24)

/-- Embeds the premul helper nested in make_image's RgbaSeparate arm:
y = (x as u16) * (a as u16), then ((y + (y >> 8) + 0x80) >> 8) as u32.
The u16 product and sum are written with their wraparound mod 2^16; for byte
inputs neither wraps, which is part of what is proved. -/
def premul (x a : Nat) : Nat :=
  let y := x * a % 2 ^ 16
  ((y + (y >>> 8) + 0x80) % 2 ^ 16) >>> 8

/-- Embeds the piet ImageFormat values matched in make_image; `other` stands
for any format reaching the wildcard arm of the match. -/
inductive ImageFormat
  | Rgb
  | RgbaSeparate
  | RgbaPremul
  | other
  deriving DecidableEq

/-- Embeds sw_composite::Image: width and height (i32 in the source, cast from
usize) and the packed 32-bit pixel data. -/
structure Image where
  width : Nat
  height : Nat
  data : List Nat
  deriving DecidableEq

/-- Embeds the piet ErrorKind values this backend constructs with new_error. -/
inductive PietError
  | stackUnbalance
  | notSupported
  deriving DecidableEq

/-- Result of make_image: a built image, an explicit error, or a Rust
index-out-of-bounds panic caused by indexing into a short final chunk. -/
inductive MakeImageResult
  | ok (img : Image)
  | err (e : PietError)
  | panic
  deriving DecidableEq

/-- Embeds the ImageFormat::Rgb loop of make_image: buf.chunks(3), indexing
i[0], i[1], i[2] in each chunk and packing 0xff << 24 | i[0] << 16 |
i[1] << 8 | i[2].  A nonempty final chunk shorter than 3 makes the indexing
panic, modelled as none. -/
def rgbChunks : List Nat → Option (List Nat)
  | [] => some []
  | r :: g :: b :: rest =>
      (rgbChunks rest).map
        (fun l => ((0xff <<< 24) ||| (r <<< 16) ||| (g <<< 8) ||| b) :: l)
  | _ => none

/-- Embeds the ImageFormat::RgbaPremul loop of make_image: buf.chunks(4),
packing i[3] << 24 | i[0] << 16 | i[1] << 8 | i[2]; a short final chunk
panics (none). -/
def rgbaPremulChunks : List Nat → Option (List Nat)
  | [] => some []
  | r :: g :: b :: a :: rest =>
      (rgbaPremulChunks rest).map
        (fun l => ((a <<< 24) ||| (r <<< 16) ||| (g <<< 8) ||| b) :: l)
  | _ => none

/-- Embeds the ImageFormat::RgbaSeparate loop of make_image: buf.chunks(4),
packing a << 24 | premul(i[0],a) << 16 | premul(i[1],a) << 8 | premul(i[2],a)
with a = i[3]; a short final chunk panics (none). -/
def rgbaSeparateChunks : List Nat → Option (List Nat)
  | [] => some []
  | r :: g :: b :: a :: rest =>
      (rgbaSeparateChunks rest).map
        (fun l =>
          ((a <<< 24) ||| (premul r a <<< 16) ||| (premul g a <<< 8) ||| premul b a) :: l)
  | _ => none

/-- Embeds RaqoteRenderContext::make_image: dispatch on the format, run the
corresponding chunk loop, and wrap the pixels into an Image carrying the
declared width and height (never validated against the buffer). -/
def make_image (width height : Nat) (buf : List Nat) (format : ImageFormat) :
    MakeImageResult :=
  match format with
  | .Rgb =>
      match rgbChunks buf with
      | some data => .ok ⟨width, height, data⟩
      | none => .panic
  | .RgbaPremul =>
      match rgbaPremulChunks buf with
      | some data => .ok ⟨width, height, data⟩
      | none => .panic
  | .RgbaSeparate =>
      match rgbaSeparateChunks buf with
      | some data => .ok ⟨width, height, data⟩
      | none => .panic
  | .other => .err .notSupported

/-- Embeds kurbo Affine (f64 coefficients as ℝ): the coefficient array
(a0..a5) of the affine map (x, y) ↦ (a0 x + a2 y + a4, a1 x + a3 y + a5). -/
@[ext] structure Affine where
  a0 : ℝ
  a1 : ℝ
  a2 : ℝ
  a3 : ℝ
  a4 : ℝ
  a5 : ℝ

/-- Embeds kurbo Affine multiplication, self * other: apply other first, then
self (the Mul impl's coefficient formula). -/
noncomputable def Affine.mul (s o : Affine) : Affine :=
  ⟨s.a0 * o.a0 + s.a2 * o.a1,
   s.a1 * o.a0 + s.a3 * o.a1,
   s.a0 * o.a2 + s.a2 * o.a3,
   s.a1 * o.a2 + s.a3 * o.a3,
   s.a0 * o.a4 + s.a2 * o.a5 + s.a4,
   s.a1 * o.a4 + s.a3 * o.a5 + s.a5⟩

/-- Embeds Affine::default, the identity map (used by CtxState's Default). -/
def Affine.identity : Affine := ⟨1, 0, 0, 1, 0, 0⟩

instance : Inhabited Affine := ⟨Affine.identity⟩

/-- Embeds euclid Transform2D<f32> (f32 entries as ℝ), row-major fields in the
order of Transform2D::row_major(m11, m12, m21, m22, m31, m32); euclid uses the
row-vector convention: a point p maps to
(p.x m11 + p.y m21 + m31, p.x m12 + p.y m22 + m32). -/
@[ext] structure Transform2D where
  m11 : ℝ
  m12 : ℝ
  m21 : ℝ
  m22 : ℝ
  m31 : ℝ
  m32 : ℝ

/-- Embeds euclid Transform2D::create_translation. -/
def Transform2D.create_translation (x y : ℝ) : Transform2D :=
  ⟨1, 0, 0, 1, x, y⟩

/-- Embeds euclid Transform2D::create_scale. -/
def Transform2D.create_scale (x y : ℝ) : Transform2D :=
  ⟨x, 0, 0, y, 0, 0⟩

/-- Embeds euclid Transform2D::create_rotation in the era's row-vector
convention: row_major(cos θ, −sin θ, sin θ, cos θ, 0, 0), so a row vector
(x, y) maps to (x cos θ + y sin θ, −x sin θ + y cos θ). -/
noncomputable def Transform2D.create_rotation (theta : ℝ) : Transform2D :=
  ⟨Real.cos theta, -Real.sin theta, Real.sin theta, Real.cos theta, 0, 0⟩

/-- Embeds euclid Transform2D::transform_point (row-vector convention). -/
def Transform2D.transform_point (t : Transform2D) (p : ℝ × ℝ) : ℝ × ℝ :=
  (p.1 * t.m11 + p.2 * t.m21 + t.m31,
   p.1 * t.m12 + p.2 * t.m22 + t.m32)

/-- Embeds euclid Transform2D::post_mul: the transform applying self first and
mat second. -/
def Transform2D.post_mul (s mat : Transform2D) : Transform2D :=
  ⟨s.m11 * mat.m11 + s.m12 * mat.m21,
   s.m11 * mat.m12 + s.m12 * mat.m22,
   s.m21 * mat.m11 + s.m22 * mat.m21,
   s.m21 * mat.m12 + s.m22 * mat.m22,
   s.m31 * mat.m11 + s.m32 * mat.m21 + mat.m31,
   s.m31 * mat.m12 + s.m32 * mat.m22 + mat.m32⟩

/-- Embeds euclid Transform2D::pre_mul: mat.post_mul(self), the transform
applying mat first and self second. -/
def Transform2D.pre_mul (s mat : Transform2D) : Transform2D :=
  mat.post_mul s

/-- Embeds euclid Transform2D::determinant. -/
def Transform2D.determinant (t : Transform2D) : ℝ :=
  t.m11 * t.m22 - t.m12 * t.m21

/-- Embeds euclid Transform2D::inverse: none exactly when the determinant is
zero, otherwise the adjugate scaled by 1/det. -/
noncomputable def Transform2D.inverse (t : Transform2D) : Option Transform2D :=
  let det := t.determinant
  if det = 0 then none
  else
    let inv_det := 1 / det
    some ⟨inv_det * t.m22, inv_det * (0 - t.m12),
          inv_det * (0 - t.m21), inv_det * t.m11,
          inv_det * (t.m21 * t.m32 - t.m22 * t.m31),
          inv_det * (t.m31 * t.m12 - t.m32 * t.m11)⟩

/-- Embeds affine_to_transform: kurbo coefficients into euclid row_major in
the same order (the f64 → f32 narrowing is the identity in the ℝ model). -/
def affine_to_transform (a : Affine) : Transform2D :=
  ⟨a.a0, a.a1, a.a2, a.a3, a.a4, a.a5⟩

/-- Embeds kurbo Vec2 (f64 components as ℝ). -/
@[ext] structure Vec2 where
  x : ℝ
  y : ℝ

/-- Embeds kurbo Vec2 subtraction (componentwise). -/
def Vec2.sub (a b : Vec2) : Vec2 := ⟨a.x - b.x, a.y - b.y⟩

/-- Embeds Vec2::hypot, the Euclidean length sqrt(x² + y²). -/
noncomputable def Vec2.hypot (v : Vec2) : ℝ :=
  Real.sqrt (v.x * v.x + v.y * v.y)

/-- Embeds Vec2::atan2 (f64 y.atan2(x)) as the argument of the complex number
x + i y; both are the angle in (−π, π] and both send the zero vector to 0. -/
noncomputable def Vec2.atan2 (v : Vec2) : ℝ :=
  Complex.arg ⟨v.x, v.y⟩

/-- The pre-inversion expression of linear_points_to_transform: the forward
transform, applying the scale first, then the rotation by the negated angle,
then the translation to the start point. -/
noncomputable def linear_forward (start e : Vec2) : Transform2D :=
  let gradient_vector := e.sub start
  let translate := Transform2D.create_translation start.x start.y
  let length := gradient_vector.hypot
  let scale := Transform2D.create_scale (length / 256) (length / 256)
  let rotation := Transform2D.create_rotation (-gradient_vector.atan2)
  (translate.pre_mul rotation).pre_mul scale

/-- Embeds linear_points_to_transform: the inverse of the forward transform;
none models the unwrap panic when the forward transform is singular. -/
noncomputable def linear_points_to_transform (start e : Vec2) : Option Transform2D :=
  (linear_forward start e).inverse

/-- The pre-inversion expression of radial_points_to_transform: the forward
transform, applying the scale by radius/128 first, then the translation to the
center. -/
noncomputable def radial_forward (center : Vec2) (radius : ℝ) : Transform2D :=
  let scale := Transform2D.create_scale (radius / 128) (radius / 128)
  let translate := Transform2D.create_translation center.x center.y
  translate.pre_mul scale

/-- Embeds radial_points_to_transform: the origin_offset parameter is accepted
and unused, as in the source; none models the unwrap panic when the forward
transform is singular. -/
noncomputable def radial_points_to_transform (center : Vec2) (_origin_offset : Vec2)
    (radius : ℝ) : Option Transform2D :=
  (radial_forward center radius).inverse

/-- Embeds piet GradientStop: stop position (f32) and packed RGBA color. -/
structure GradientStop where
  pos : ℝ
  rgba : Nat

/-- Embeds raqote GradientStop: position (f32) and packed ARGB color. -/
structure RaqoteGradientStop where
  position : ℝ
  color : Nat

/-- Embeds the piet Gradient description variants handed to gradient(). -/
inductive PietGradient
  | linear (stops : List GradientStop) (start e : Vec2)
  | radial (stops : List GradientStop) (center origin_offset : Vec2) (radius : ℝ)

/-- Embeds the raqote Source (brush) variants this backend constructs. -/
inductive Source
  | solid (r g b a : Nat)
  | linearGradient (stops : List RaqoteGradientStop) (transform : Transform2D)
  | radialGradient (stops : List RaqoteGradientStop) (transform : Transform2D)
  | image (img : Image) (transform : Transform2D)

/-- Embeds the per-stop conversion inside RaqoteRenderContext::gradient. -/
def convert_stop (s : GradientStop) : RaqoteGradientStop :=
  ⟨s.pos, rgba_to_arbg s.rgba⟩

/-- Embeds RaqoteRenderContext::gradient.  The Rust method always returns Ok,
so the Ok wrapper is elided; none models the unwrap panic inside the transform
derivation when the forward transform is singular. -/
noncomputable def gradient : PietGradient → Option Source
  | .linear stops start e =>
      (linear_points_to_transform start e).map
        (fun t => .linearGradient (stops.map convert_stop) t)
  | .radial stops center origin_offset radius =>
      (radial_points_to_transform center origin_offset radius).map
        (fun t => .radialGradient (stops.map convert_stop) t)

/-- Embeds RaqoteRenderContext::solid_brush. -/
def solid_brush (rgba : Nat) : Source :=
  let (r, g, b, a) := split_rgba rgba
  .solid r g b a

/-- Embeds CtxState: the per-scope transform; Default gives the identity. -/
structure CtxState where
  transform : Affine

instance : Inhabited CtxState := ⟨⟨Affine.identity⟩⟩

/-- Embeds the RaqoteRenderContext state: ctx_stack (the head of the list is
the top of the stack, i.e. the last element of the Rust Vec) and the borrowed
DrawTarget's transform register. -/
structure RaqoteRenderContext where
  ctx_stack : List CtxState
  dt_transform : Transform2D

/-- Embeds RaqoteRenderContext::new over a DrawTarget whose transform register
currently holds t. -/
def RaqoteRenderContext.new (t : Transform2D) : RaqoteRenderContext :=
  ⟨[⟨Affine.identity⟩], t⟩

/-- Embeds current_transform, self.ctx_stack.last().unwrap().transform; the
unwrap's protected invariant (nonempty stack) is carried as a hypothesis at
every use. -/
def RaqoteRenderContext.current_transform (ctx : RaqoteRenderContext) : Affine :=
  ctx.ctx_stack.headI.transform

/-- Embeds save: push a copy of the top entry; none models the (unreachable
while the invariant holds) unwrap panic on an empty stack. -/
def RaqoteRenderContext.save (ctx : RaqoteRenderContext) : Option RaqoteRenderContext :=
  match ctx.ctx_stack with
  | t :: rest => some ⟨⟨t.transform⟩ :: t :: rest, ctx.dt_transform⟩
  | [] => none

/-- Embeds transform: top.transform *= m (kurbo right-multiplication), then
the new current transform is pushed to the DrawTarget register; none models
the unwrap panic on an empty stack. -/
noncomputable def RaqoteRenderContext.transform (ctx : RaqoteRenderContext) (m : Affine) :
    Option RaqoteRenderContext :=
  match ctx.ctx_stack with
  | t :: rest =>
      some ⟨⟨t.transform.mul m⟩ :: rest, affine_to_transform (t.transform.mul m)⟩
  | [] => none

/-- Embeds restore: with fewer than two stack entries, fail with StackUnbalance
(the Rust early return precedes any mutation, so the state is unchanged);
otherwise pop the top and push the new top's transform to the DrawTarget
register. -/
def RaqoteRenderContext.restore (ctx : RaqoteRenderContext) :
    Except PietError RaqoteRenderContext :=
  match ctx.ctx_stack with
  | _ :: s :: rest => .ok ⟨s :: rest, affine_to_transform s.transform⟩
  | _ => .error .stackUnbalance

/-- Embeds finish: unless the stack holds exactly one entry, fail with
StackUnbalance (state unchanged); otherwise pop the last entry, leaving the
empty stack; the DrawTarget register is untouched. -/
def RaqoteRenderContext.finish (ctx : RaqoteRenderContext) :
    Except PietError RaqoteRenderContext :=
  match ctx.ctx_stack with
  | [_] => .ok ⟨[], ctx.dt_transform⟩
  | _ => .error .stackUnbalance

/-! Helper lemmas shared by several claims. -/

/-- Bitwise or of disjoint values is addition: a multiple of 2^i or-ed with a
value below 2^i. -/
theorem lor_disjoint (i a b : Nat) (ha : 2 ^ i ∣ a) (hb : b < 2 ^ i) :
    a ||| b = a + b := by
  obtain ⟨k, rfl⟩ := ha
  exact (Nat.mul_add_lt_is_or hb k).symm

/-- Masking with 255 is reduction mod 256. -/
theorem and_255_eq_mod (x : Nat) : x &&& 255 = x % 256 := by
  have h := Nat.and_pow_two_sub_one_eq_mod x 8
  norm_num at h
  exact h

/-- The byte packing X << 24 | Y << 16 | Z << 8 | W as plain arithmetic, for
byte values of the three lower fields. -/
theorem pack_bytes_eq (X Y Z W : Nat) (hY : Y < 256) (hZ : Z < 256) (hW : W < 256) :
    (X <<< 24) ||| (Y <<< 16) ||| (Z <<< 8) ||| W
      = X * 2 ^ 24 + Y * 2 ^ 16 + Z * 2 ^ 8 + W := by
  rw [Nat.shiftLeft_eq, Nat.shiftLeft_eq, Nat.shiftLeft_eq]
  have e1 : X * 2 ^ 24 ||| Y * 2 ^ 16 = X * 2 ^ 24 + Y * 2 ^ 16 :=
    lor_disjoint 24 _ _ ⟨X, mul_comm _ _⟩ (by omega)
  have e2 : X * 2 ^ 24 + Y * 2 ^ 16 ||| Z * 2 ^ 8
      = X * 2 ^ 24 + Y * 2 ^ 16 + Z * 2 ^ 8 :=
    lor_disjoint 16 _ _ ⟨2 ^ 8 * X + Y, by ring⟩ (by omega)
  have e3 : X * 2 ^ 24 + Y * 2 ^ 16 + Z * 2 ^ 8 ||| W
      = X * 2 ^ 24 + Y * 2 ^ 16 + Z * 2 ^ 8 + W :=
    lor_disjoint 8 _ _ ⟨2 ^ 16 * X + 2 ^ 8 * Y + Z, by ring⟩ (by omega)
  rw [e1, e2, e3]

/-- Additive form of rgba_to_arbg on 32-bit inputs: an 8-bit right rotation. -/
theorem rgba_to_arbg_eq (x : Nat) (h : x < 2 ^ 32) :
    rgba_to_arbg x = x % 256 * 2 ^ 24 + x / 256 := by
  unfold rgba_to_arbg
  rw [Nat.shiftLeft_eq, Nat.shiftRight_eq_div_pow]
  have h1 : x * 2 ^ 24 % 2 ^ 32 = x % 256 * 2 ^ 24 := by omega
  have h2 : x % 256 * 2 ^ 24 ||| x / 2 ^ 8 = x % 256 * 2 ^ 24 + x / 2 ^ 8 :=
    lor_disjoint 24 _ _ ⟨x % 256, mul_comm _ _⟩ (by omega)
  rw [h1, h2]
  omega

/-- Additive form of arbg_to_rgba on 32-bit inputs: an 8-bit left rotation. -/
theorem arbg_to_rgba_eq (x : Nat) (h : x < 2 ^ 32) :
    arbg_to_rgba x = x % 2 ^ 24 * 2 ^ 8 + x / 2 ^ 24 := by
  unfold arbg_to_rgba
  rw [Nat.shiftLeft_eq, Nat.shiftRight_eq_div_pow]
  have h1 : x * 2 ^ 8 % 2 ^ 32 = x % 2 ^ 24 * 2 ^ 8 := by omega
  have h2 : x % 2 ^ 24 * 2 ^ 8 ||| x / 2 ^ 24 = x % 2 ^ 24 * 2 ^ 8 + x / 2 ^ 24 :=
    lor_disjoint 8 _ _ ⟨x % 2 ^ 24, mul_comm _ _⟩ (by omega)
  rw [h1, h2]

/-- kurbo Affine multiplication is associative. -/
theorem Affine.mul_assoc (a b c : Affine) :
    (a.mul b).mul c = a.mul (b.mul c) := by
  ext <;> simp [Affine.mul] <;> ring

/-! Claim theorems. -/

/-- C3: splitting a 32-bit RGBA value into its four bytes and repacking them
reproduces the value; rgba_to_arbg computes exactly
(rgba << 24) | (rgba >> 8) in u32 arithmetic, stays within 32 bits, and is a
bijection on the 32-bit space, inverted by the opposite 8-bit rotation. -/
theorem split_repack_rotate_spec (rgba : Nat) (h : rgba < 2 ^ 32) :
    repack_rgba (split_rgba rgba).1 (split_rgba rgba).2.1 (split_rgba rgba).2.2.1
        (split_rgba rgba).2.2.2 = rgba ∧
    rgba_to_arbg rgba = ((rgba <<< 24) % 2 ^ 32) ||| (rgba >>> 8) ∧
    rgba_to_arbg rgba < 2 ^ 32 ∧
    arbg_to_rgba (rgba_to_arbg rgba) = rgba ∧
    rgba_to_arbg (arbg_to_rgba rgba) = rgba := by
  refine ⟨?_, rfl, ?_, ?_, ?_⟩
  · simp only [split_rgba]
    unfold repack_rgba
    rw [and_255_eq_mod, and_255_eq_mod, and_255_eq_mod,
      Nat.shiftRight_eq_div_pow, Nat.shiftRight_eq_div_pow, Nat.shiftRight_eq_div_pow,
      pack_bytes_eq _ _ _ _ (by omega) (by omega) (by omega)]
    omega
  · have h1 := rgba_to_arbg_eq rgba h
    omega
  · have h1 := rgba_to_arbg_eq rgba h
    have h2 : rgba_to_arbg rgba < 2 ^ 32 := by omega
    rw [arbg_to_rgba_eq _ h2, h1]
    omega
  · have h1 := arbg_to_rgba_eq rgba h
    have h2 : arbg_to_rgba rgba < 2 ^ 32 := by omega
    rw [rgba_to_arbg_eq _ h2, h1]
    omega

/-- Witness for C3 at rgba = 0x12345678. -/
theorem split_repack_rotate_spec_witness :
    repack_rgba (split_rgba 0x12345678).1 (split_rgba 0x12345678).2.1
        (split_rgba 0x12345678).2.2.1 (split_rgba 0x12345678).2.2.2 = 0x12345678 ∧
    arbg_to_rgba (rgba_to_arbg 0x12345678) = 0x12345678 ∧
    rgba_to_arbg (arbg_to_rgba 0x12345678) = 0x12345678 :=
  ⟨(split_repack_rotate_spec 0x12345678 (by norm_num)).1,
   (split_repack_rotate_spec 0x12345678 (by norm_num)).2.2.2.1,
   (split_repack_rotate_spec 0x12345678 (by norm_num)).2.2.2.2⟩

/-- C4: for byte inputs, the u16 premultiplication computes exactly the
integer formula ((x*a) + ((x*a) >> 8) + 0x80) >> 8 with no wraparound (the
intermediate product stays below 2^16), and premul(255,128) = 128,
premul(128,128) = 64, premul(64,128) = 32. -/
theorem premul_exact_spec (x a : Nat) (hx : x < 256) (ha : a < 256) :
    premul x a = (x * a + (x * a) >>> 8 + 0x80) >>> 8 ∧
    x * a < 2 ^ 16 ∧
    premul 255 128 = 128 ∧ premul 128 128 = 64 ∧ premul 64 128 = 32 := by
  have hle : x * a ≤ 255 * 255 := Nat.mul_le_mul (by omega) (by omega)
  refine ⟨?_, by omega, by decide, by decide, by decide⟩
  simp only [premul, Nat.shiftRight_eq_div_pow]
  omega

/-- Witness for C4 at x = 255, a = 128. -/
theorem premul_exact_spec_witness :
    premul 255 128 = (255 * 128 + (255 * 128) >>> 8 + 0x80) >>> 8 ∧
    premul 255 128 = 128 :=
  ⟨(premul_exact_spec 255 128 (by norm_num) (by norm_num)).1,
   (premul_exact_spec 255 128 (by norm_num) (by norm_num)).2.2.1⟩

/-- C1: on a state whose stack has depth 1 (only the root scope), restore
fails with StackUnbalance — the early return precedes any mutation, so depth
and transforms are unchanged; with depth ≥ 2 it pops the top entry and pushes
the new top's transform to the DrawTarget register. -/
theorem restore_spec (ctx : RaqoteRenderContext) :
    (ctx.ctx_stack.length = 1 → ctx.restore = .error .stackUnbalance) ∧
    (2 ≤ ctx.ctx_stack.length →
      ctx.restore = .ok ⟨ctx.ctx_stack.tail,
        affine_to_transform ctx.ctx_stack.tail.headI.transform⟩) := by
  obtain ⟨stack, dt⟩ := ctx
  rcases stack with _ | ⟨t, _ | ⟨s, rest⟩⟩
  · exact ⟨fun h => absurd h (by simp), fun h => absurd h (by simp)⟩
  · exact ⟨fun _ => rfl, fun h => absurd h (by simp)⟩
  · exact ⟨fun h => absurd h (by simp), fun _ => rfl⟩

/-- Witness for C1: restore fails on a depth-1 stack and pops on a depth-2
stack. -/
theorem restore_spec_witness :
    RaqoteRenderContext.restore
        ⟨[⟨Affine.identity⟩], affine_to_transform Affine.identity⟩
      = .error .stackUnbalance ∧
    RaqoteRenderContext.restore
        ⟨[⟨Affine.identity⟩, ⟨Affine.identity⟩], affine_to_transform Affine.identity⟩
      = .ok ⟨[⟨Affine.identity⟩], affine_to_transform Affine.identity⟩ :=
  ⟨(restore_spec _).1 rfl, (restore_spec _).2 (by simp)⟩

/-- C7: finish succeeds exactly on stack depth 1, popping the root entry and
leaving the empty stack (the terminal state); any other depth fails with
StackUnbalance and leaves the state unchanged. -/
theorem finish_spec (ctx : RaqoteRenderContext) :
    (ctx.ctx_stack.length = 1 → ctx.finish = .ok ⟨[], ctx.dt_transform⟩) ∧
    (ctx.ctx_stack.length ≠ 1 → ctx.finish = .error .stackUnbalance) := by
  obtain ⟨stack, dt⟩ := ctx
  rcases stack with _ | ⟨t, _ | ⟨s, rest⟩⟩
  · exact ⟨fun h => absurd h (by simp), fun _ => rfl⟩
  · exact ⟨fun _ => rfl, fun h => absurd rfl h⟩
  · exact ⟨fun h => absurd h (by simp), fun _ => rfl⟩

/-- Witness for C7: finish succeeds on a depth-1 stack and fails on a depth-2
stack. -/
theorem finish_spec_witness :
    RaqoteRenderContext.finish
        ⟨[⟨Affine.identity⟩], affine_to_transform Affine.identity⟩
      = .ok ⟨[], affine_to_transform Affine.identity⟩ ∧
    RaqoteRenderContext.finish
        ⟨[⟨Affine.identity⟩, ⟨Affine.identity⟩], affine_to_transform Affine.identity⟩
      = .error .stackUnbalance :=
  ⟨(finish_spec _).1 rfl, (finish_spec _).2 (by simp)⟩

/-- C2: from any state with a nonempty stack, with T0 the current effective
transform, save; transform(M1); transform(M2) succeeds and makes the effective
(top-of-stack) transform (T0 * M1) * M2 = T0 * (M1 * M2) — kurbo *, applying
the right factor first, i.e. composition T0 then M1 then M2 in the local
frame — and the subsequent restore succeeds and restores exactly T0. -/
theorem save_transform_restore_spec (ctx : RaqoteRenderContext)
    (t : CtxState) (rest : List CtxState) (h : ctx.ctx_stack = t :: rest)
    (M1 M2 : Affine) :
    ∃ c1 c2 c3 c4,
      ctx.save = some c1 ∧
      c1.transform M1 = some c2 ∧
      c2.transform M2 = some c3 ∧
      c3.current_transform = (ctx.current_transform.mul M1).mul M2 ∧
      c3.current_transform = ctx.current_transform.mul (M1.mul M2) ∧
      c3.restore = .ok c4 ∧
      c4.current_transform = ctx.current_transform := by
  obtain ⟨stack, dt⟩ := ctx
  simp only at h
  subst h
  exact ⟨_, _, _, _, rfl, rfl, rfl, rfl,
    Affine.mul_assoc t.transform M1 M2, rfl, rfl⟩

/-- Witness for C2 on a fresh context with identity factors. -/
theorem save_transform_restore_spec_witness :
    ∃ c1 c2 c3 c4,
      (RaqoteRenderContext.new (affine_to_transform Affine.identity)).save = some c1 ∧
      c1.transform Affine.identity = some c2 ∧
      c2.transform Affine.identity = some c3 ∧
      c3.current_transform =
        ((RaqoteRenderContext.new
            (affine_to_transform Affine.identity)).current_transform.mul
          Affine.identity).mul Affine.identity ∧
      c3.current_transform =
        (RaqoteRenderContext.new
            (affine_to_transform Affine.identity)).current_transform.mul
          (Affine.identity.mul Affine.identity) ∧
      c3.restore = .ok c4 ∧
      c4.current_transform =
        (RaqoteRenderContext.new (affine_to_transform Affine.identity)).current_transform :=
  save_transform_restore_spec _ ⟨Affine.identity⟩ [] rfl Affine.identity Affine.identity

/-- An element of a byte list read through getD at an in-bounds index is a
byte. -/
theorem getD_lt_256 (buf : List Nat) (h : ∀ x ∈ buf, x < 256) (i : Nat)
    (hi : i < buf.length) : buf.getD i 0 < 256 := by
  rw [List.getD_eq_getElem?_getD, List.getElem?_eq_getElem hi]
  simp only [Option.getD_some]
  exact h _ (List.getElem_mem hi)

/-- Peeling four cons cells off a getD index. -/
theorem getD_cons4 (r g b a : Nat) (l : List Nat) (n : Nat) :
    (r :: g :: b :: a :: l).getD (n + 4) 0 = l.getD n 0 := by
  have e : n + 4 = n + 1 + 1 + 1 + 1 := by omega
  rw [e, List.getD_cons_succ, List.getD_cons_succ, List.getD_cons_succ,
    List.getD_cons_succ]

/-- Byte extraction from the packed value X << 24 | Y << 16 | Z << 8 | W. -/
theorem pack_bytes_extract (X Y Z W : Nat) (_hX : X < 256) (hY : Y < 256)
    (hZ : Z < 256) (hW : W < 256) :
    ((X <<< 24) ||| (Y <<< 16) ||| (Z <<< 8) ||| W) >>> 24 = X ∧
    (((X <<< 24) ||| (Y <<< 16) ||| (Z <<< 8) ||| W) >>> 16) % 256 = Y ∧
    (((X <<< 24) ||| (Y <<< 16) ||| (Z <<< 8) ||| W) >>> 8) % 256 = Z ∧
    ((X <<< 24) ||| (Y <<< 16) ||| (Z <<< 8) ||| W) % 256 = W := by
  rw [pack_bytes_eq _ _ _ _ hY hZ hW]
  refine ⟨?_, ?_, ?_, ?_⟩ <;> (try simp only [Nat.shiftRight_eq_div_pow]) <;> omega

/-- rgbChunks succeeds exactly on buffers whose length is a multiple of 3
(it panics, i.e. returns none, on any other length). -/
theorem rgbChunks_isSome_iff : ∀ buf : List Nat,
    (rgbChunks buf).isSome ↔ 3 ∣ buf.length
  | [] => by simp [rgbChunks]
  | [_] => by simp [rgbChunks]; try omega
  | [_, _] => by simp [rgbChunks]; try omega
  | _ :: _ :: _ :: rest => by
      have ih := rgbChunks_isSome_iff rest
      simp [rgbChunks, Option.isSome_map', ih]
      try omega

/-- rgbaPremulChunks succeeds exactly on lengths that are multiples of 4. -/
theorem rgbaPremulChunks_isSome_iff : ∀ buf : List Nat,
    (rgbaPremulChunks buf).isSome ↔ 4 ∣ buf.length
  | [] => by simp [rgbaPremulChunks]
  | [_] => by simp [rgbaPremulChunks]; try omega
  | [_, _] => by simp [rgbaPremulChunks]; try omega
  | [_, _, _] => by simp [rgbaPremulChunks]; try omega
  | _ :: _ :: _ :: _ :: rest => by
      have ih := rgbaPremulChunks_isSome_iff rest
      simp [rgbaPremulChunks, Option.isSome_map', ih]
      try omega

/-- rgbaSeparateChunks succeeds exactly on lengths that are multiples of 4. -/
theorem rgbaSeparateChunks_isSome_iff : ∀ buf : List Nat,
    (rgbaSeparateChunks buf).isSome ↔ 4 ∣ buf.length
  | [] => by simp [rgbaSeparateChunks]
  | [_] => by simp [rgbaSeparateChunks]; try omega
  | [_, _] => by simp [rgbaSeparateChunks]; try omega
  | [_, _, _] => by simp [rgbaSeparateChunks]; try omega
  | _ :: _ :: _ :: _ :: rest => by
      have ih := rgbaSeparateChunks_isSome_iff rest
      simp [rgbaSeparateChunks, Option.isSome_map', ih]
      try omega

/-- A successful rgbChunks run yields one pixel per 3 input bytes. -/
theorem rgbChunks_length : ∀ buf out : List Nat,
    rgbChunks buf = some out → out.length = buf.length / 3
  | [], out => by intro h; simp [rgbChunks] at h; subst h; simp
  | [_], out => by intro h; simp [rgbChunks] at h
  | [_, _], out => by intro h; simp [rgbChunks] at h
  | _ :: _ :: _ :: rest, out => by
      intro h
      simp only [rgbChunks, Option.map_eq_some'] at h
      obtain ⟨out', hout', rfl⟩ := h
      have ih := rgbChunks_length rest out' hout'
      simp [ih]
      omega

/-- A successful rgbaPremulChunks run yields one pixel per 4 input bytes. -/
theorem rgbaPremulChunks_length : ∀ buf out : List Nat,
    rgbaPremulChunks buf = some out → out.length = buf.length / 4
  | [], out => by intro h; simp [rgbaPremulChunks] at h; subst h; simp
  | [_], out => by intro h; simp [rgbaPremulChunks] at h
  | [_, _], out => by intro h; simp [rgbaPremulChunks] at h
  | [_, _, _], out => by intro h; simp [rgbaPremulChunks] at h
  | _ :: _ :: _ :: _ :: rest, out => by
      intro h
      simp only [rgbaPremulChunks, Option.map_eq_some'] at h
      obtain ⟨out', hout', rfl⟩ := h
      have ih := rgbaPremulChunks_length rest out' hout'
      simp [ih]
      omega

/-- A successful rgbaSeparateChunks run yields one pixel per 4 input bytes. -/
theorem rgbaSeparateChunks_length : ∀ buf out : List Nat,
    rgbaSeparateChunks buf = some out → out.length = buf.length / 4
  | [], out => by intro h; simp [rgbaSeparateChunks] at h; subst h; simp
  | [_], out => by intro h; simp [rgbaSeparateChunks] at h
  | [_, _], out => by intro h; simp [rgbaSeparateChunks] at h
  | [_, _, _], out => by intro h; simp [rgbaSeparateChunks] at h
  | _ :: _ :: _ :: _ :: rest, out => by
      intro h
      simp only [rgbaSeparateChunks, Option.map_eq_some'] at h
      obtain ⟨out', hout', rfl⟩ := h
      have ih := rgbaSeparateChunks_length rest out' hout'
      simp [ih]
      omega

/-- Every pixel produced by the Rgb loop carries alpha byte 0xff. -/
theorem rgbChunks_alpha : ∀ buf out : List Nat,
    rgbChunks buf = some out → (∀ x ∈ buf, x < 256) →
    ∀ p ∈ out, p >>> 24 = 0xff
  | [], out => by intro h _; simp [rgbChunks] at h; subst h; simp
  | [_], out => by intro h; simp [rgbChunks] at h
  | [_, _], out => by intro h; simp [rgbChunks] at h
  | r :: g :: b :: rest, out => by
      intro h hbytes
      simp only [rgbChunks, Option.map_eq_some'] at h
      obtain ⟨out', hout', rfl⟩ := h
      intro p hp
      rcases List.mem_cons.mp hp with hp | hp
      · subst hp
        have hr : r < 256 := hbytes r (by simp)
        have hg : g < 256 := hbytes g (by simp)
        have hb : b < 256 := hbytes b (by simp)
        rw [pack_bytes_eq _ _ _ _ hr hg hb, Nat.shiftRight_eq_div_pow]
        omega
      · exact rgbChunks_alpha rest out' hout'
          (fun x hx => hbytes x (by simp [hx])) p hp

/-- Indexed characterization of the RgbaPremul loop: pixel j is the packing
a << 24 | r << 16 | g << 8 | b of input bytes 4j .. 4j+3. -/
theorem rgbaPremulChunks_getD : ∀ buf out : List Nat,
    rgbaPremulChunks buf = some out →
    ∀ j, j < out.length →
      out.getD j 0
        = (buf.getD (4 * j + 3) 0) <<< 24 ||| (buf.getD (4 * j) 0) <<< 16
            ||| (buf.getD (4 * j + 1) 0) <<< 8 ||| buf.getD (4 * j + 2) 0
  | [], out => by
      intro h; simp [rgbaPremulChunks] at h
      subst h; intro j hj; simp at hj
  | [_], out => by intro h; simp [rgbaPremulChunks] at h
  | [_, _], out => by intro h; simp [rgbaPremulChunks] at h
  | [_, _, _], out => by intro h; simp [rgbaPremulChunks] at h
  | r :: g :: b :: a :: rest, out => by
      intro h
      simp only [rgbaPremulChunks, Option.map_eq_some'] at h
      obtain ⟨out', hout', rfl⟩ := h
      intro j hj
      match j with
      | 0 => rfl
      | j + 1 =>
          have ih := rgbaPremulChunks_getD rest out' hout' j (by simpa using hj)
          have e0 : 4 * (j + 1) = 4 * j + 4 := by omega
          have e1 : 4 * (j + 1) + 1 = 4 * j + 1 + 4 := by omega
          have e2 : 4 * (j + 1) + 2 = 4 * j + 2 + 4 := by omega
          have e3 : 4 * (j + 1) + 3 = 4 * j + 3 + 4 := by omega
          rw [List.getD_cons_succ, e1, e2, e3, e0, getD_cons4, getD_cons4,
            getD_cons4, getD_cons4]
          exact ih

/-- C5: image ingestion by format.  Rgb forces alpha 0xff on every produced
pixel; RgbaPremul repacks each 4-byte pixel (r, g, b, a) into the
alpha-most-significant 32-bit layout with all four channel values unchanged
(each byte is recovered exactly from its lane), producing len/4 pixels; an
unsupported format fails with the NotSupported error and produces no Image. -/
theorem make_image_format_spec (w h : Nat) (buf : List Nat)
    (hbytes : ∀ x ∈ buf, x < 256) :
    (∀ img, make_image w h buf .Rgb = .ok img →
      ∀ p ∈ img.data, p >>> 24 = 0xff) ∧
    (∀ img, make_image w h buf .RgbaPremul = .ok img →
      img.data.length = buf.length / 4 ∧
      ∀ j, j < buf.length / 4 →
        (img.data.getD j 0) >>> 24 = buf.getD (4 * j + 3) 0 ∧
        ((img.data.getD j 0) >>> 16) % 256 = buf.getD (4 * j) 0 ∧
        ((img.data.getD j 0) >>> 8) % 256 = buf.getD (4 * j + 1) 0 ∧
        (img.data.getD j 0) % 256 = buf.getD (4 * j + 2) 0) ∧
    make_image w h buf .other = .err .notSupported := by
  refine ⟨?_, ?_, rfl⟩
  · intro img himg
    unfold make_image at himg
    rcases hc : rgbChunks buf with _ | out
    · rw [hc] at himg; exact absurd himg (by simp)
    · rw [hc] at himg
      have himg' : img = ⟨w, h, out⟩ := by
        cases himg; rfl
      subst himg'
      exact rgbChunks_alpha buf out hc hbytes
  · intro img himg
    unfold make_image at himg
    rcases hc : rgbaPremulChunks buf with _ | out
    · rw [hc] at himg; exact absurd himg (by simp)
    · rw [hc] at himg
      have himg' : img = ⟨w, h, out⟩ := by
        cases himg; rfl
      subst himg'
      have hlen := rgbaPremulChunks_length buf out hc
      refine ⟨hlen, ?_⟩
      intro j hj
      have hj' : j < out.length := by omega
      have hidx := rgbaPremulChunks_getD buf out hc j hj'
      have hlenbuf : 4 * j + 3 < buf.length := by omega
      have hA := getD_lt_256 buf hbytes (4 * j + 3) (by omega)
      have hR := getD_lt_256 buf hbytes (4 * j) (by omega)
      have hG := getD_lt_256 buf hbytes (4 * j + 1) (by omega)
      have hB := getD_lt_256 buf hbytes (4 * j + 2) (by omega)
      have hext := pack_bytes_extract _ _ _ _ hA hR hG hB
      rw [hidx]
      exact hext

/-- Witness for C5: a 2-pixel RGB buffer, a 1-pixel premultiplied buffer, and
the unsupported format. -/
theorem make_image_format_spec_witness :
    (∀ img, make_image 2 1 [1, 2, 3, 4, 5, 6] .Rgb = .ok img →
      ∀ p ∈ img.data, p >>> 24 = 0xff) ∧
    make_image 1 1 [10, 20, 30, 40] .other = .err .notSupported :=
  ⟨(make_image_format_spec 2 1 [1, 2, 3, 4, 5, 6] (by decide)).1,
   (make_image_format_spec 1 1 [10, 20, 30, 40] (by decide)).2.2⟩

/-- C10: make_image never validates the buffer length against the declared
width and height; for each supported format it panics (index out of bounds on
the short final chunk) exactly when the length is not a multiple of the pixel
size (3 for Rgb, 4 for the two Rgba formats), and under the multiple
precondition it succeeds with exactly len/3 (resp. len/4) pixels, for every
width and height. -/
theorem make_image_chunking_spec (w h : Nat) (buf : List Nat) :
    (make_image w h buf .Rgb = .panic ↔ ¬ 3 ∣ buf.length) ∧
    (3 ∣ buf.length → ∃ data, make_image w h buf .Rgb = .ok ⟨w, h, data⟩ ∧
      data.length = buf.length / 3) ∧
    (make_image w h buf .RgbaPremul = .panic ↔ ¬ 4 ∣ buf.length) ∧
    (4 ∣ buf.length → ∃ data, make_image w h buf .RgbaPremul = .ok ⟨w, h, data⟩ ∧
      data.length = buf.length / 4) ∧
    (make_image w h buf .RgbaSeparate = .panic ↔ ¬ 4 ∣ buf.length) ∧
    (4 ∣ buf.length → ∃ data, make_image w h buf .RgbaSeparate = .ok ⟨w, h, data⟩ ∧
      data.length = buf.length / 4) := by
  refine ⟨?_, ?_, ?_, ?_, ?_, ?_⟩
  · rw [← rgbChunks_isSome_iff]
    unfold make_image
    rcases hc : rgbChunks buf with _ | out <;> simp [hc]
  · intro hdvd
    have hsome := (rgbChunks_isSome_iff buf).mpr hdvd
    rcases hc : rgbChunks buf with _ | out
    · rw [hc] at hsome; simp at hsome
    · exact ⟨out, by unfold make_image; rw [hc], rgbChunks_length buf out hc⟩
  · rw [← rgbaPremulChunks_isSome_iff]
    unfold make_image
    rcases hc : rgbaPremulChunks buf with _ | out <;> simp [hc]
  · intro hdvd
    have hsome := (rgbaPremulChunks_isSome_iff buf).mpr hdvd
    rcases hc : rgbaPremulChunks buf with _ | out
    · rw [hc] at hsome; simp at hsome
    · exact ⟨out, by unfold make_image; rw [hc], rgbaPremulChunks_length buf out hc⟩
  · rw [← rgbaSeparateChunks_isSome_iff]
    unfold make_image
    rcases hc : rgbaSeparateChunks buf with _ | out <;> simp [hc]
  · intro hdvd
    have hsome := (rgbaSeparateChunks_isSome_iff buf).mpr hdvd
    rcases hc : rgbaSeparateChunks buf with _ | out
    · rw [hc] at hsome; simp at hsome
    · exact ⟨out, by unfold make_image; rw [hc], rgbaSeparateChunks_length buf out hc⟩

/-- Witness for C10: a 2-byte buffer panics under Rgb, a 3-byte buffer under
RgbaSeparate, and a 6-byte RGB buffer produces two pixels even with
width*height = 1. -/
theorem make_image_chunking_spec_witness :
    make_image 7 9 [1, 2] .Rgb = .panic ∧
    make_image 7 9 [1, 2, 3] .RgbaSeparate = .panic ∧
    (∃ data, make_image 1 1 [1, 2, 3, 4, 5, 6] .Rgb = .ok ⟨1, 1, data⟩ ∧
      data.length = 2) :=
  ⟨(make_image_chunking_spec 7 9 [1, 2]).1.mpr (by decide),
   (make_image_chunking_spec 7 9 [1, 2, 3]).2.2.2.2.1.mpr (by decide),
   (make_image_chunking_spec 1 1 [1, 2, 3, 4, 5, 6]).2.1 (by decide)⟩

/-- pre_mul composes pointwise: the mat argument is applied first. -/
theorem transform_point_pre_mul (s mat : Transform2D) (p : ℝ × ℝ) :
    (s.pre_mul mat).transform_point p
      = s.transform_point (mat.transform_point p) := by
  simp only [Transform2D.pre_mul, Transform2D.post_mul, Transform2D.transform_point,
    Prod.mk.injEq]
  constructor <;> ring

/-- The determinant is multiplicative over pre_mul. -/
theorem determinant_pre_mul (s mat : Transform2D) :
    (s.pre_mul mat).determinant = s.determinant * mat.determinant := by
  simp only [Transform2D.pre_mul, Transform2D.post_mul, Transform2D.determinant]
  ring

/-- Translations have determinant 1. -/
theorem det_create_translation (x y : ℝ) :
    (Transform2D.create_translation x y).determinant = 1 := by
  simp [Transform2D.create_translation, Transform2D.determinant]

/-- Scales have determinant x * y. -/
theorem det_create_scale (x y : ℝ) :
    (Transform2D.create_scale x y).determinant = x * y := by
  simp [Transform2D.create_scale, Transform2D.determinant]

/-- Rotations have determinant 1. -/
theorem det_create_rotation (theta : ℝ) :
    (Transform2D.create_rotation theta).determinant = 1 := by
  simp only [Transform2D.create_rotation, Transform2D.determinant]
  have h := Real.sin_sq_add_cos_sq theta
  nlinarith [h]

/-- inverse fails exactly on zero determinant. -/
theorem inverse_eq_none_iff (t : Transform2D) :
    t.inverse = none ↔ t.determinant = 0 := by
  unfold Transform2D.inverse
  by_cases h : t.determinant = 0 <;> simp [h]

/-- inverse succeeds on nonzero determinant. -/
theorem inverse_isSome (t : Transform2D) (h : t.determinant ≠ 0) :
    ∃ u, t.inverse = some u := by
  unfold Transform2D.inverse
  simp [h]

/-- C6: for distinct start and end points, the forward transform derived for a
linear gradient (translate(start) after rotate after scale(L/256), L the
gradient-vector length) maps the rasterizer's native gradient segment onto the
caller's: native (0,0) goes to start and native (256,0) goes to end; the
forward transform is invertible and the brush handed to the rasterizer stores
exactly its inverse. -/
theorem linear_gradient_spec (stops : List GradientStop) (s e : Vec2)
    (h : s ≠ e) :
    (linear_forward s e).transform_point (0, 0) = (s.x, s.y) ∧
    (linear_forward s e).transform_point (256, 0) = (e.x, e.y) ∧
    ∃ inv, (linear_forward s e).inverse = some inv ∧
      linear_points_to_transform s e = some inv ∧
      gradient (.linear stops s e) = some (.linearGradient (stops.map convert_stop) inv) := by
  have hz : (⟨e.x - s.x, e.y - s.y⟩ : ℂ) ≠ 0 := by
    intro hc
    apply h
    have h1 : e.x - s.x = 0 := by simpa using congrArg Complex.re hc
    have h2 : e.y - s.y = 0 := by simpa using congrArg Complex.im hc
    ext
    · linarith
    · linarith
  have habs : (Vec2.sub e s).hypot = Complex.abs ⟨e.x - s.x, e.y - s.y⟩ := by
    rw [Complex.abs_apply, Complex.normSq_mk]
    simp only [Vec2.sub, Vec2.hypot]
  have habs_ne : Complex.abs ⟨e.x - s.x, e.y - s.y⟩ ≠ 0 :=
    Complex.abs.ne_zero hz
  have harg : (Vec2.sub e s).atan2 = Complex.arg ⟨e.x - s.x, e.y - s.y⟩ := rfl
  have hc : (Vec2.sub e s).hypot * Real.cos ((Vec2.sub e s).atan2) = e.x - s.x := by
    rw [habs, harg, Complex.cos_arg hz]
    field_simp
  have hs : (Vec2.sub e s).hypot * Real.sin ((Vec2.sub e s).atan2) = e.y - s.y := by
    rw [habs, harg, Complex.sin_arg]
    field_simp
  have hL_ne : (Vec2.sub e s).hypot ≠ 0 := by
    rw [habs]; exact habs_ne
  refine ⟨?_, ?_, ?_⟩
  · simp only [linear_forward, Transform2D.pre_mul, Transform2D.post_mul,
      Transform2D.create_translation, Transform2D.create_scale,
      Transform2D.create_rotation, Transform2D.transform_point,
      Real.cos_neg, Real.sin_neg, Prod.mk.injEq]
    constructor <;> ring
  · simp only [linear_forward, Transform2D.pre_mul, Transform2D.post_mul,
      Transform2D.create_translation, Transform2D.create_scale,
      Transform2D.create_rotation, Transform2D.transform_point,
      Real.cos_neg, Real.sin_neg, Prod.mk.injEq]
    constructor
    · linear_combination hc
    · linear_combination hs
  · have hdet : (linear_forward s e).determinant
        = ((Vec2.sub e s).hypot / 256) * ((Vec2.sub e s).hypot / 256) := by
      simp only [linear_forward]
      rw [determinant_pre_mul, determinant_pre_mul, det_create_translation,
        det_create_rotation, det_create_scale]
      ring
    have hdet_ne : (linear_forward s e).determinant ≠ 0 := by
      rw [hdet]
      have h256 : (Vec2.sub e s).hypot / 256 ≠ 0 := by
        exact div_ne_zero hL_ne (by norm_num)
      exact mul_ne_zero h256 h256
    obtain ⟨inv, hinv⟩ := inverse_isSome _ hdet_ne
    exact ⟨inv, hinv, hinv, by simp [gradient, linear_points_to_transform, hinv]⟩

/-- Witness for C6 at start (0,0), end (100,0). -/
theorem linear_gradient_spec_witness :
    (linear_forward ⟨0, 0⟩ ⟨100, 0⟩).transform_point (0, 0) = (0, 0) ∧
    (linear_forward ⟨0, 0⟩ ⟨100, 0⟩).transform_point (256, 0) = (100, 0) ∧
    ∃ inv, (linear_forward ⟨0, 0⟩ ⟨100, 0⟩).inverse = some inv ∧
      linear_points_to_transform ⟨0, 0⟩ ⟨100, 0⟩ = some inv ∧
      gradient (.linear [] ⟨0, 0⟩ ⟨100, 0⟩) = some (.linearGradient [] inv) :=
  linear_gradient_spec [] ⟨0, 0⟩ ⟨100, 0⟩ (by
    intro hc
    have := congrArg Vec2.x hc
    norm_num at this)

/-- C8: for a degenerate linear gradient (start = end) the derivation is
unhandled: the gradient-vector length, hence the forward scale factor, is
zero, the forward transform is singular (determinant 0), its inversion fails,
and constructing the gradient brush panics (the unwrap on the failed
inversion, modelled as none) instead of returning an error or a fallback. -/
theorem linear_gradient_degenerate_spec (s : Vec2) (stops : List GradientStop) :
    (Vec2.sub s s).hypot = 0 ∧
    (linear_forward s s).determinant = 0 ∧
    linear_points_to_transform s s = none ∧
    gradient (.linear stops s s) = none := by
  have h0 : (Vec2.sub s s).hypot = 0 := by
    simp [Vec2.sub, Vec2.hypot]
  have hdet : (linear_forward s s).determinant = 0 := by
    simp only [linear_forward]
    rw [determinant_pre_mul, determinant_pre_mul, det_create_translation,
      det_create_rotation, det_create_scale, h0]
    ring
  have hnone : linear_points_to_transform s s = none :=
    (inverse_eq_none_iff _).mpr hdet
  exact ⟨h0, hdet, hnone, by simp [gradient, hnone]⟩

/-- C9: the forward transform derived for a radial gradient acts as
translate(center) after scale(radius/128) on every point; the accepted
origin-offset parameter has no effect on the derived transform; for nonzero
radius the forward transform is invertible and the brush handed to the
rasterizer stores exactly its inverse. -/
theorem radial_gradient_spec (c o1 o2 : Vec2) (r : ℝ) (stops : List GradientStop)
    (hr : r ≠ 0) :
    radial_points_to_transform c o1 r = radial_points_to_transform c o2 r ∧
    (∀ p : ℝ × ℝ, (radial_forward c r).transform_point p
      = (c.x + r / 128 * p.1, c.y + r / 128 * p.2)) ∧
    ∃ inv, (radial_forward c r).inverse = some inv ∧
      radial_points_to_transform c o1 r = some inv ∧
      gradient (.radial stops c o1 r) = some (.radialGradient (stops.map convert_stop) inv) := by
  refine ⟨rfl, ?_, ?_⟩
  · intro p
    simp only [radial_forward, Transform2D.pre_mul, Transform2D.post_mul,
      Transform2D.create_translation, Transform2D.create_scale,
      Transform2D.transform_point, Prod.mk.injEq]
    constructor <;> ring
  · have hdet : (radial_forward c r).determinant = (r / 128) * (r / 128) := by
      simp only [radial_forward]
      rw [determinant_pre_mul, det_create_translation, det_create_scale]
      ring
    have hdet_ne : (radial_forward c r).determinant ≠ 0 := by
      rw [hdet]
      have h128 : r / 128 ≠ 0 := div_ne_zero hr (by norm_num)
      exact mul_ne_zero h128 h128
    obtain ⟨inv, hinv⟩ := inverse_isSome _ hdet_ne
    exact ⟨inv, hinv, hinv, by simp [gradient, radial_points_to_transform, hinv]⟩

/-- Witness for C9 at center (1,2), radius 5, and two different origin
offsets. -/
theorem radial_gradient_spec_witness :
    radial_points_to_transform ⟨1, 2⟩ ⟨3, 4⟩ 5 = radial_points_to_transform ⟨1, 2⟩ ⟨6, 7⟩ 5 ∧
    (∀ p : ℝ × ℝ, (radial_forward ⟨1, 2⟩ 5).transform_point p
      = (1 + 5 / 128 * p.1, 2 + 5 / 128 * p.2)) ∧
    ∃ inv, (radial_forward ⟨1, 2⟩ 5).inverse = some inv ∧
      radial_points_to_transform ⟨1, 2⟩ ⟨3, 4⟩ 5 = some inv ∧
      gradient (.radial [] ⟨1, 2⟩ ⟨3, 4⟩ 5) = some (.radialGradient [] inv) :=
  radial_gradient_spec ⟨1, 2⟩ ⟨3, 4⟩ ⟨6, 7⟩ 5 [] (by norm_num)

end PietRaqote
